import Mathlib

/-!
# Verification of the chunked-summarization pipeline

Shallow embedding of the core of the `gpt-chat-summarization-assistant`
repository (files `src/utils/text_extract_summarize.py`,
`src/utils/openai_mgmt.py`, `src/utils/consts.py`, `src/app.py`) together
with proofs about the embedded definitions.

External collaborators (the tiktoken token counter behind
`num_tokens_in_string`, the nltk sentence/word tokenizers, and the OpenAI
completion endpoint behind `openai_completion`) are not code of this
repository; following the spec (sections 4.1, 4.4, 6) they are modelled as
explicit function parameters, gathered in `SummEnv` / `AnswerEnv`.
Everything else is translated statement by statement from the Python
source.
-/

namespace SummApp

/-- A chat message, mirroring the `{"role": ..., "content": ...}` dicts
built in `summarize_chunk` and `update_answer_output`. -/
structure ChatMsg where
  role : String
  content : String
deriving DecidableEq, Repr

/-- Boolean substring test on character lists; used to embed Python's
`x in s` on strings (`app.py` membership tests, oracle instrumentation). -/
def isSubstr : List Char → List Char → Bool
  | p, [] => p.isEmpty
  | p, c :: rest => p.isPrefixOf (c :: rest) || isSubstr p rest

/-- `AI_SUMMARIZATION_TYPE["TEXT_SUMMARIZATION"]` from `utils/consts.py`. -/
def TEXT_SUMMARIZATION : String := "Text summarization"

/-- `AI_SUMMARIZATION_TYPE["BULLET_POINTS"]` from `utils/consts.py`. -/
def BULLET_POINTS : String := "Bullet points"

/-- `AI_SUMMARIZATION_TYPE["FOCUS_QUESTION"]` from `utils/consts.py`. -/
def FOCUS_QUESTION : String := "Focus on question"

/-- State of the loop in `split_into_chunks`:
`(chunks, current_chunk, current_chunk_tokens)`. -/
abbrev ChunkState := List String × String × Nat

/-- One iteration of the `for sentence in sentences` loop of
`split_into_chunks` (`text_extract_summarize.py`, lines 94-102).
`tok` models `num_tokens_in_string`. -/
def chunkStep (tok : String → Nat) (tokens_limit : Nat)
    (st : ChunkState) (sentence : String) : ChunkState :=
  let sentence_tokens := tok sentence
  if st.2.2 + sentence_tokens > tokens_limit then
    (st.1 ++ [st.2.1], sentence, sentence_tokens)
  else
    (st.1, st.2.1 ++ " " ++ sentence, st.2.2 + sentence_tokens)

/-- `split_into_chunks` (`text_extract_summarize.py`, lines 85-107):
greedy grouping of sentences into chunks.  The final
`if current_chunk: chunks.append(current_chunk)` is the non-empty-string
test on the buffer (Python truthiness). -/
def split_into_chunks (tok : String → Nat) (sentences : List String)
    (tokens_limit : Nat) : List String :=
  let st := sentences.foldl (chunkStep tok tokens_limit) ([], "", 0)
  if st.2.1 ≠ "" then st.1 ++ [st.2.1] else st.1

/-- State of the sentence-level rerun of the loop of `split_into_chunks`:
the buffers hold the list of sentences placed in each chunk instead of the
concatenated string. -/
abbrev ChunkStateL := List (List String) × List String × Nat

/-- Sentence-level version of `chunkStep`: identical control flow, but the
buffer records the sentences themselves rather than the joined string. -/
def chunkStepL (tok : String → Nat) (tokens_limit : Nat)
    (st : ChunkStateL) (sentence : String) : ChunkStateL :=
  let sentence_tokens := tok sentence
  if st.2.2 + sentence_tokens > tokens_limit then
    (st.1 ++ [st.2.1], [sentence], sentence_tokens)
  else
    (st.1, st.2.1 ++ [sentence], st.2.2 + sentence_tokens)

/-- Sentence-level version of `split_into_chunks`, recording which
sentences make up each chunk.  (The final flush drops an empty buffer; for
non-empty sentences this is the same condition as the string truthiness
test in the source, see `split_into_chunks_eq_render`.) -/
def split_into_chunksL (tok : String → Nat) (sentences : List String)
    (tokens_limit : Nat) : List (List String) :=
  let st := sentences.foldl (chunkStepL tok tokens_limit) ([], [], 0)
  if st.2.1 ≠ [] then st.1 ++ [st.2.1] else st.1

/-- External collaborators of the summarization pipeline, modelled as
function parameters (spec sections 4.1, 4.4, 6):
* `tok` — `num_tokens_in_string` (`openai_mgmt.py`, lines 5-13): tiktoken
  `cl100k_base` token counting, a pure deterministic `String → Nat`;
* `sent_tokenize` — nltk's sentence segmenter wrapped by
  `split_into_sentences`;
* `word_tokenize` — nltk's word tokenizer;
* `openai_completion` — the OpenAI chat endpoint (`openai_mgmt.py`, lines
  16-34): returns the completion string or raises `OpenAIError`, modelled
  by `Except` carrying the error message; the sampling temperature is
  passed through unchanged. -/
structure SummEnv where
  tok : String → Nat
  sent_tokenize : String → List String
  word_tokenize : String → List String
  openai_completion : List ChatMsg → String → ℚ → Except String String

/-- `split_into_sentences` (`text_extract_summarize.py`, lines 78-82). -/
def split_into_sentences (env : SummEnv) (text : String) : List String :=
  env.sent_tokenize text

/-- The `user_prompt` built by `summarize_chunk`
(`text_extract_summarize.py`, lines 123-153): conditional string
formatting dispatched on `summarize_type` and on `num_chunks > 1`. -/
def user_prompt_of (summarize_type : String) (num_chunks chunk_pos : Nat)
    (chunk question : String) (short_size : Nat) : String :=
  let bullet_option :=
    if summarize_type = BULLET_POINTS then
      "with capturing main points and key details in form of bullets from"
    else if summarize_type = TEXT_SUMMARIZATION then
      "with capturing main points and key details from"
    else ""
  if summarize_type = TEXT_SUMMARIZATION ∨ summarize_type = BULLET_POINTS then
    if num_chunks > 1 then
      "Please summarize " ++ bullet_option ++ " the following " ++
        Nat.repr chunk_pos ++ ". part of the larger text in " ++
        Nat.repr short_size ++ " words: " ++ chunk
    else
      "Please summarize " ++ bullet_option ++ " the following text in " ++
        Nat.repr short_size ++ " words: " ++ chunk
  else if summarize_type = FOCUS_QUESTION then
    if num_chunks > 1 then
      "Please analyze the " ++ Nat.repr chunk_pos ++
        ". part of the larger text and provide a summary in " ++
        Nat.repr short_size ++
        " words focusing on the question: `" ++ question ++
        "`. This part of the text is: " ++ chunk
    else
      "Please analyze the following text and provide a summary in " ++
        Nat.repr short_size ++
        " words focusing on the question: `" ++ question ++
        "`. The text is: " ++ chunk
  else ""

/-- The fixed `system_prompt` of `summarize_chunk`
(`text_extract_summarize.py`, lines 155-156). -/
def system_prompt : String :=
  "You are a summarization expert. Your summary should be accurate and objective. " ++
  "Add headings and subheadings. Use markdown for formatting."

/-- `summarize_chunk` (`text_extract_summarize.py`, lines 110-174).
`short_size = int(num_of_words * length_percentage / 100)` is truncating
division on non-negative values, i.e. `Nat` division.  The
`try/except ... raise` around `openai_completion` re-raises unchanged,
which is the identity on `Except`. -/
def summarize_chunk (env : SummEnv) (num_chunks chunk_pos : Nat)
    (chunk summarize_type question llm_model : String)
    (length_percentage : Nat) (randomness : ℚ) : Except String String :=
  let num_of_words := (env.word_tokenize chunk).length
  let short_size := num_of_words * length_percentage / 100
  let user_prompt :=
    user_prompt_of summarize_type num_chunks chunk_pos chunk question short_size
  let gpt_prompt : List ChatMsg :=
    [⟨"system", system_prompt⟩, ⟨"user", user_prompt⟩]
  env.openai_completion gpt_prompt llm_model randomness

/-- The `for chunk_pos, chunk in enumerate(chunks)` loop of `process_text`
(`text_extract_summarize.py`, lines 196-210), translated statement by
statement.  In the source the `return summary_pieces` sits INSIDE the loop
body (the `else:` of the `try`), so a successful iteration returns at
once and later chunks are never visited; when the loop runs zero times,
control falls off the end of the function and Python returns `None`
(modelled by `Except.ok none`). -/
def process_text_loop (env : SummEnv)
    (summarize_type question llm_model : String)
    (length_percentage : Nat) (randomness : ℚ) (num_chunks : Nat) :
    Nat → String → List String → Except String (Option String)
  | _, _, [] => .ok none
  | chunk_pos, summary_pieces, chunk :: _rest =>
    match summarize_chunk env num_chunks (chunk_pos + 1) chunk
        summarize_type question llm_model length_percentage randomness with
    | .error e => .error e
    | .ok summarization => .ok (some (summary_pieces ++ "\n\n" ++ summarization))

/-- `process_text` (`text_extract_summarize.py`, lines 177-210): segment,
partition, then run the summarization loop. -/
def process_text (env : SummEnv) (content_text : String)
    (summarize_type question llm_model : String) (tokens_limit : Nat)
    (length_percentage : Nat) (randomness : ℚ) :
    Except String (Option String) :=
  let sentences := split_into_sentences env content_text
  let chunks := split_into_chunks env.tok sentences tokens_limit
  let num_chunks := chunks.length
  process_text_loop env summarize_type question llm_model length_percentage
    randomness num_chunks 0 "" chunks

/-- The hyphen-at-line-break normalization of `extract_text_from_pdf`
(`text_extract_summarize.py`, line 68):
`pdf_text.replace('-\n', '')`.  Python's `str.replace` deletes the
occurrences of the two-character pattern scanning left to right; since
`'-' ≠ '\n'` the occurrences in the original string never overlap, so a
single scan removes exactly them. -/
def removeHyphenNewline : List Char → List Char
  | [] => []
  | [c] => [c]
  | c :: d :: rest =>
    if c = '-' ∧ d = '\n' then removeHyphenNewline rest
    else c :: removeHyphenNewline (d :: rest)

/-- `extract_text_from_pdf` (`text_extract_summarize.py`, lines 54-75).
The pypdf text layer of each page is external input, modelled by the
`pages` list; the word counter is nltk's, modelled by `word_tokenize`.
The function concatenates the page texts, removes the `-\n` artifacts and
returns the text with its word count. -/
def extract_text_from_pdf (word_tokenize : String → List String)
    (pages : List String) : String × Nat :=
  let pdf_text := String.join pages
  let pdf_text := String.mk (removeHyphenNewline pdf_text.data)
  (pdf_text, (word_tokenize pdf_text).length)

/-- `LLM_MODEL` (`app.py`, line 25). -/
def LLM_MODEL : String := "gpt-4"

/-- `get_system_prompt` (`app.py`, lines 38-49).  Python's `x in s`
substring tests become `isSubstr`. -/
def get_system_prompt (sys_prompt : String) (ai_custom_role : Option String) :
    String :=
  let base :=
    match ai_custom_role with
    | some r => if r.length > 0 then "You are " ++ r ++ "." else "You are " ++ sys_prompt ++ "."
    | none => "You are " ++ sys_prompt ++ "."
  if ["school", "physics", "math", "maths", "mathematics"].any
      (fun subs => isSubstr subs.data base.data) then
    base ++ " If you answer with equations, write them as separate blocks in LaTeX and delimit them with $$."
  else if isSubstr "proofreader".data sys_prompt.data then
    base ++ " Proofread and correct this text: "
  else base

/-- External collaborators of the conversational handler
`update_answer_output`: the OpenAI completion endpoint and the pure
regex-based `fix_latex` post-processing (`app.py`, lines 296-314), whose
internals none of the claims depend on. -/
structure AnswerEnv where
  openai_completion : List ChatMsg → String → ℚ → Except String String
  fix_latex : String → String

/-- The `text-output` slot returned by `update_answer_output`: either a
single rendered message (`dcc.Markdown(output_text)`) or the accumulated
`outputs` list. -/
inductive TextOutput
  | md (s : String)
  | list (l : List String)
deriving DecidableEq, Repr

/-- The tuple returned by `update_answer_output` (slots: text-output,
new input value, history, outputs), plus an instrumentation flag
`llmCalled` recording whether `openai_completion` was invoked on the run. -/
structure AnswerOut where
  textOutput : TextOutput
  inputValue : Option String
  history : List ChatMsg
  outputs : List String
  llmCalled : Bool
deriving DecidableEq, Repr

/-- Result of a Dash callback: `PreventUpdate`, an implicit `None` from
falling off the function end, or a returned tuple. -/
inductive CbResult (α : Type)
  | preventUpdate
  | fallthrough
  | value (a : α)
deriving DecidableEq, Repr

/-- `update_answer_output` (`app.py`, lines 343-398), the conversational
submission handler, translated branch by branch.  `outputs` holds the
rendered markdown texts.  The `api_error` flag decides whether the input
field is cleared. -/
def update_answer_output (env : AnswerEnv) (prompt_button_clicks : Option Nat)
    (trigger_id : String) (history0 : Option (List ChatMsg))
    (outputs0 : Option (List String)) (sys_prompt : String)
    (ai_custom_role : Option String) (input_text : Option String)
    (random_value : ℚ) : CbResult AnswerOut :=
  match prompt_button_clicks with
  | none => .preventUpdate
  | some _ =>
    let history := history0.getD []
    let outputs := outputs0.getD []
    let history :=
      if history.length = 0 then
        history ++ [⟨"system", get_system_prompt sys_prompt ai_custom_role⟩]
      else history
    if isSubstr "prompt-button".data trigger_id.data then
      if (match input_text with | none => true | some t => t.length = 0) then
        .value ⟨.md "Please enter a prompt.", input_text, history, outputs, false⟩
      else
        let it := input_text.getD ""
        let history := history ++ [⟨"user", it⟩]
        match env.openai_completion history LLM_MODEL random_value with
        | .error e =>
          let output_text := "OpenAI API error: " ++ e
          let outputs := ("\n🙂: " ++ it) :: ("🤖: " ++ output_text) :: outputs
          .value ⟨.list outputs, input_text, history, outputs, true⟩
        | .ok completion =>
          let output_text := env.fix_latex completion
          let history := history ++ [⟨"assistant", output_text⟩]
          let outputs := ("\n🙂: " ++ it) :: ("🤖: " ++ output_text) :: outputs
          .value ⟨.list outputs, some "", history, outputs, true⟩
    else .fallthrough

/-- String contents of the initial chunk buffer of `split_into_chunks`
after the given sentences were appended: the buffer starts as `''` and
each sentence is appended as `' ' + sentence`. -/
def renderInit (l : List String) : String :=
  l.foldl (fun a t => a ++ " " ++ t) ""

/-- String contents of a chunk buffer seeded by an overflow flush: the
buffer starts as the seeding sentence and each later sentence is appended
as `' ' + sentence`. -/
def renderSeeded : List String → String
  | [] => ""
  | s :: rest => rest.foldl (fun a t => a ++ " " ++ t) s

/-- The chunk strings corresponding to sentence-level chunks: the first
chunk comes from the initial buffer, all later ones from seeded buffers. -/
def renderChunks : List (List String) → List String
  | [] => []
  | c :: cs => renderInit c :: cs.map renderSeeded

/-- Correspondence between a loop state of `split_into_chunks` and the
matching loop state of `split_into_chunksL`: flushed chunks are the
rendered flushed sentence-chunks, the token counters agree, and the
string buffer is the rendering of the sentence buffer (initial-style
before the first flush, seeded-style - and non-empty - afterwards). -/
def RenderInv (st : ChunkState) (stL : ChunkStateL) : Prop :=
  st.1 = renderChunks stL.1 ∧ st.2.2 = stL.2.2
    ∧ (stL.1 = [] → st.2.1 = renderInit stL.2.1)
    ∧ (stL.1 ≠ [] → st.2.1 = renderSeeded stL.2.1 ∧ stL.2.1 ≠ [] ∧ st.2.1 ≠ "")

/-- Erase all space characters; "comparison ignoring inter-sentence
spacing" of two texts is equality of their `noSpace` images (the
partitioner only ever inserts `' '` separators). -/
def noSpace (l : List Char) : List Char := l.filter (· != ' ')

/-- The "Nth part of the larger text" framing phrase used by the
multi-chunk prompts of `summarize_chunk`. -/
def partPhrase : String := "part of the larger text"

/-- Toy instantiation of the external token counter for concrete runs. -/
def demoTok : String → Nat := String.length

/-- Toy instantiation of the external sentence segmenter: splits the one
document `"A. B."` into its two sentences. -/
def demoSent : String → List String :=
  fun t => if t = "A. B." then ["A.", "B."] else []

/-- Toy instantiation of the external word tokenizer. -/
def demoWord : String → List String := fun s => if s = "" then [] else [s]

/-- Environment whose completion oracle always succeeds with `"S"`. -/
def demoEnvOk : SummEnv :=
  ⟨demoTok, demoSent, demoWord, fun _ _ _ => .ok "S"⟩

/-- Environment whose completion oracle fails exactly on prompts that
reference the second part of a larger text ("provider error during
chunk 2"), and succeeds with `"S"` otherwise. -/
def demoEnvFailPart2 : SummEnv :=
  ⟨demoTok, demoSent, demoWord,
    fun prompt _ _ =>
      if prompt.any (fun m => isSubstr "2. part".data m.content.data) then
        .error "boom"
      else .ok "S"⟩

/-- Environment whose sentence segmenter finds no sentences. -/
def demoEnvNoSentences : SummEnv :=
  ⟨demoTok, fun _ => [], demoWord, fun _ _ _ => .ok "S"⟩

/-- Environment for the conversational handler with an always-succeeding
completion oracle. -/
def demoAnswerEnv : AnswerEnv := ⟨fun _ _ _ => .ok "S", id⟩

/-! ## Generic helper lemmas -/

theorem data_foldl_append (l : List String) :
    ∀ a : String, (l.foldl (· ++ ·) a).data = a.data ++ (l.map String.data).flatten := by
  induction l with
  | nil => intro a; simp
  | cons s l ih =>
    intro a
    simp only [List.foldl_cons, ih, String.data_append, List.map_cons,
      List.flatten_cons, List.append_assoc]

theorem data_join (l : List String) :
    (String.join l).data = (l.map String.data).flatten := by
  simp [String.join, data_foldl_append l ""]

theorem noSpace_append (a b : List Char) :
    noSpace (a ++ b) = noSpace a ++ noSpace b := by
  simp [noSpace]

/-! ## Conservation of the sentence text by `split_into_chunks` (C2) -/

theorem chunk_fold_conserve (tok : String → Nat) (L : Nat) :
    ∀ (S : List String) (cs : List String) (cur : String) (t : Nat),
      noSpace ((((S.foldl (chunkStep tok L) (cs, cur, t)).1).map String.data).flatten
          ++ ((S.foldl (chunkStep tok L) (cs, cur, t)).2.1).data)
        = noSpace ((cs.map String.data).flatten ++ cur.data
            ++ (S.map String.data).flatten) := by
  intro S
  induction S with
  | nil => intro cs cur t; simp
  | cons s S ih =>
    intro cs cur t
    by_cases h : t + tok s > L
    · have hstep : chunkStep tok L (cs, cur, t) s = (cs ++ [cur], s, tok s) := by
        simp [chunkStep, h]
      rw [List.foldl_cons, hstep, ih]
      simp [List.flatten_append, List.append_assoc]
    · have hstep : chunkStep tok L (cs, cur, t) s
          = (cs, cur ++ " " ++ s, t + tok s) := by
        simp [chunkStep, h]
      rw [List.foldl_cons, hstep, ih]
      have hsp : noSpace (" ".data) = [] := by decide
      simp only [String.data_append, noSpace_append, hsp, List.map_cons,
        List.flatten_cons, List.append_assoc, List.append_nil, List.nil_append]

/-- C2: for every token limit `L > 0` and sentence list `S`, the chunks
returned by `split_into_chunks S L`, concatenated in output order and
compared ignoring spacing, equal the concatenation of the sentences of
`S` in their original order — no sentence is dropped, duplicated, split
across chunks, or reordered. -/
theorem split_into_chunks_conserves_text (tok : String → Nat)
    (S : List String) (L : Nat) (hL : 0 < L) :
    noSpace (String.join (split_into_chunks tok S L)).data
      = noSpace (String.join S).data := by
  have h := chunk_fold_conserve tok L S [] "" 0
  simp only [List.map_nil, List.flatten_nil, String.data, List.nil_append] at h
  rw [data_join, data_join]
  simp only [split_into_chunks]
  split
  · rw [List.map_append, List.flatten_append]
    simpa using h
  · rename_i hcur
    have : (S.foldl (chunkStep tok L) ([], "", 0)).2.1 = "" := by
      by_contra hc; exact hcur hc
    rw [this] at h
    simpa using h

/-- Witness for `split_into_chunks_conserves_text` at a concrete input. -/
theorem split_into_chunks_conserves_text_witness :
    noSpace (String.join (split_into_chunks String.length ["ab c.", "d."] 6)).data
      = noSpace (String.join ["ab c.", "d."]).data :=
  split_into_chunks_conserves_text String.length ["ab c.", "d."] 6 (by decide)

/-! ## Token bound of the partitioner (C3) -/

/-- A chunk is within budget if the sum of its sentences' token counts is
at most the limit, or it is a single sentence that alone exceeds it. -/
def chunkWithinBudget (tok : String → Nat) (L : Nat) (c : List String) : Prop :=
  (c.map tok).sum ≤ L ∨ ∃ s, c = [s] ∧ L < tok s

theorem chunkL_fold_budget (tok : String → Nat) (L : Nat) :
    ∀ (S : List String) (cs : List (List String)) (c : List String) (t : Nat),
      (∀ x ∈ cs, chunkWithinBudget tok L x) →
      t = (c.map tok).sum → chunkWithinBudget tok L c →
      (∀ x ∈ (S.foldl (chunkStepL tok L) (cs, c, t)).1, chunkWithinBudget tok L x)
        ∧ (S.foldl (chunkStepL tok L) (cs, c, t)).2.2
            = (((S.foldl (chunkStepL tok L) (cs, c, t)).2.1).map tok).sum
        ∧ chunkWithinBudget tok L (S.foldl (chunkStepL tok L) (cs, c, t)).2.1 := by
  intro S
  induction S with
  | nil => intro cs c t hcs ht hc; exact ⟨hcs, ht, hc⟩
  | cons s S ih =>
    intro cs c t hcs ht hc
    by_cases h : t + tok s > L
    · have hstep : chunkStepL tok L (cs, c, t) s = (cs ++ [c], [s], tok s) := by
        simp [chunkStepL, h]
      rw [List.foldl_cons, hstep]
      refine ih (cs ++ [c]) [s] (tok s) ?_ (by simp) ?_
      · intro x hx
        rcases List.mem_append.1 hx with hx | hx
        · exact hcs x hx
        · simp only [List.mem_singleton] at hx; subst hx; exact hc
      · by_cases hs : tok s ≤ L
        · exact Or.inl (by simpa using hs)
        · exact Or.inr ⟨s, rfl, by omega⟩
    · have hstep : chunkStepL tok L (cs, c, t) s = (cs, c ++ [s], t + tok s) := by
        simp [chunkStepL, h]
      rw [List.foldl_cons, hstep]
      refine ih cs (c ++ [s]) (t + tok s) hcs (by simp [ht]) ?_
      exact Or.inl (by simp only [not_lt] at h; simpa [ht] using h)

/-- C3 (amended): every chunk produced by the partitioner that is not a
single sentence whose own token count exceeds the limit has the SUM of
its sentences' token counts (the running count the source checks against
the limit) at most `L`.  The token count of the assembled chunk string,
which additionally contains the inserted separator spaces, is not bounded
by the code — see `split_into_chunks_string_count_cex`. -/
theorem split_into_chunksL_token_bound (tok : String → Nat)
    (S : List String) (L : Nat) (hL : 0 < L) :
    ∀ c ∈ split_into_chunksL tok S L, chunkWithinBudget tok L c := by
  intro c hc
  obtain ⟨h1, _h2, h3⟩ :=
    chunkL_fold_budget tok L S [] [] 0 (by simp) (by simp) (Or.inl (by simp))
  unfold split_into_chunksL at hc
  simp only at hc
  split at hc
  · rcases List.mem_append.1 hc with hc | hc
    · exact h1 c hc
    · simp only [List.mem_singleton] at hc; subst hc; exact h3
  · exact h1 c hc

/-- Witness for `split_into_chunksL_token_bound` at a concrete input. -/
theorem split_into_chunksL_token_bound_witness :
    chunkWithinBudget String.length 4 ["aa", "bb"] :=
  split_into_chunksL_token_bound String.length ["aa", "bb"] 4 (by decide)
    ["aa", "bb"] (by decide)

/-- Counterexample to C3 as stated: with limit `4`, the sentences
`"aa"`, `"bb"` (2 tokens each under the modelled counter) are packed into
the single chunk `" aa bb"`, which consists of two sentences — not a
single oversized one — yet the same counter applied to the assembled
chunk string, separator spaces included, gives `6 > 4`.  The source never
re-measures the assembled string; it only bounds the sum of the
per-sentence counts. -/
theorem split_into_chunks_string_count_cex :
    split_into_chunksL String.length ["aa", "bb"] 4 = [["aa", "bb"]]
      ∧ split_into_chunks String.length ["aa", "bb"] 4 = [" aa bb"]
      ∧ ¬ String.length " aa bb" ≤ 4 := by
  refine ⟨by decide, ?_, by decide⟩
  decide

/-! ## Monotonicity of the chunk count in the token limit (C4) -/

/-- Number of chunks the partitioner will report from a loop state: the
flushed chunks plus the final buffer if it is non-empty. -/
def finalChunkCount (st : ChunkState) : Nat :=
  st.1.length + (if st.2.1 ≠ "" then 1 else 0)

/-- Simulation relation between the loop states of two runs of
`split_into_chunks` over the same sentences, the first with the larger
limit: the first run has flushed at most as many chunks, and when the
flush counts coincide its buffer is a suffix of the other's with at most
its token count. -/
def chunkDominates (st1 st2 : ChunkState) : Prop :=
  st1.1.length ≤ st2.1.length ∧
    (st1.1.length = st2.1.length →
      st1.2.2 ≤ st2.2.2 ∧ st1.2.1.data <:+ st2.2.1.data)

theorem chunkStep_dominates (tok : String → Nat) (L1 L2 : Nat) (hL : L2 ≤ L1)
    (st1 st2 : ChunkState) (h : chunkDominates st1 st2) (s : String) :
    chunkDominates (chunkStep tok L1 st1 s) (chunkStep tok L2 st2 s) := by
  obtain ⟨cs1, c1, t1⟩ := st1
  obtain ⟨cs2, c2, t2⟩ := st2
  obtain ⟨hlen, heq⟩ := h
  dsimp only [chunkDominates] at hlen heq
  by_cases h1 : t1 + tok s > L1 <;> by_cases h2 : t2 + tok s > L2
  · -- both flush
    have e1 : chunkStep tok L1 (cs1, c1, t1) s = (cs1 ++ [c1], s, tok s) := by
      simp [chunkStep, h1]
    have e2 : chunkStep tok L2 (cs2, c2, t2) s = (cs2 ++ [c2], s, tok s) := by
      simp [chunkStep, h2]
    rw [e1, e2]
    refine ⟨by simp; omega, fun _ => ⟨le_refl _, List.suffix_refl _⟩⟩
  · -- run 1 flushes, run 2 appends
    have e1 : chunkStep tok L1 (cs1, c1, t1) s = (cs1 ++ [c1], s, tok s) := by
      simp [chunkStep, h1]
    have e2 : chunkStep tok L2 (cs2, c2, t2) s
        = (cs2, c2 ++ " " ++ s, t2 + tok s) := by
      simp [chunkStep, h2]
    rw [e1, e2]
    have hlt : cs1.length < cs2.length := by
      rcases lt_or_eq_of_le hlen with hlt | hl
      · exact hlt
      · obtain ⟨ht, _⟩ := heq hl
        omega
    refine ⟨by simp; omega, fun hE => ⟨Nat.le_add_left _ _, ?_⟩⟩
    exact ⟨(c2 ++ " ").data, by simp⟩
  · -- run 2 flushes, run 1 appends
    have e1 : chunkStep tok L1 (cs1, c1, t1) s
        = (cs1, c1 ++ " " ++ s, t1 + tok s) := by
      simp [chunkStep, h1]
    have e2 : chunkStep tok L2 (cs2, c2, t2) s = (cs2 ++ [c2], s, tok s) := by
      simp [chunkStep, h2]
    rw [e1, e2]
    refine ⟨by simp; omega, fun hE => ?_⟩
    exfalso
    simp at hE
    omega
  · -- neither flushes
    have e1 : chunkStep tok L1 (cs1, c1, t1) s
        = (cs1, c1 ++ " " ++ s, t1 + tok s) := by
      simp [chunkStep, h1]
    have e2 : chunkStep tok L2 (cs2, c2, t2) s
        = (cs2, c2 ++ " " ++ s, t2 + tok s) := by
      simp [chunkStep, h2]
    rw [e1, e2]
    refine ⟨hlen, fun hl => ?_⟩
    obtain ⟨ht, hsuf⟩ := heq hl
    refine ⟨by dsimp only; omega, ?_⟩
    obtain ⟨p, hp⟩ := hsuf
    refine ⟨p, ?_⟩
    show p ++ (c1 ++ " " ++ s).data = (c2 ++ " " ++ s).data
    simp only [String.data_append, ← List.append_assoc, hp]

theorem chunk_fold_dominates (tok : String → Nat) (L1 L2 : Nat) (hL : L2 ≤ L1) :
    ∀ (S : List String) (st1 st2 : ChunkState), chunkDominates st1 st2 →
      chunkDominates (S.foldl (chunkStep tok L1) st1)
        (S.foldl (chunkStep tok L2) st2) := by
  intro S
  induction S with
  | nil => intro st1 st2 h; exact h
  | cons s S ih =>
    intro st1 st2 h
    exact ih _ _ (chunkStep_dominates tok L1 L2 hL st1 st2 h s)

theorem finalChunkCount_le_of_dominates (st1 st2 : ChunkState)
    (h : chunkDominates st1 st2) : finalChunkCount st1 ≤ finalChunkCount st2 := by
  obtain ⟨hlen, heq⟩ := h
  unfold finalChunkCount
  by_cases hl : st1.1.length = st2.1.length
  · obtain ⟨_, hsuf⟩ := heq hl
    by_cases hc1 : st1.2.1 = ""
    · by_cases hc2 : st2.2.1 = "" <;> simp [hc1, hc2, hl]
    · have hc2 : st2.2.1 ≠ "" := by
        intro hc2
        obtain ⟨p, hp⟩ := hsuf
        rw [hc2] at hp
        have hnil : st1.2.1.data = [] := (List.append_eq_nil.1 hp).2
        exact hc1 (String.ext hnil)
      simp [hc1, hc2, hl]
  · have hlt : st1.1.length < st2.1.length := lt_of_le_of_ne hlen hl
    by_cases hc1 : st1.2.1 = "" <;> by_cases hc2 : st2.2.1 = "" <;>
      simp [hc1, hc2] <;> omega

theorem split_into_chunks_length_eq (tok : String → Nat) (S : List String)
    (L : Nat) :
    (split_into_chunks tok S L).length
      = finalChunkCount (S.foldl (chunkStep tok L) ([], "", 0)) := by
  simp only [split_into_chunks, finalChunkCount]
  split <;> rename_i h <;> simp [h]

/-- C4: for a fixed sentence list and limits `L1 ≥ L2 > 0`, lowering the
limit never lowers the number of chunks produced. -/
theorem split_into_chunks_count_antitone (tok : String → Nat)
    (S : List String) (L1 L2 : Nat) (hL2 : 0 < L2) (hle : L2 ≤ L1) :
    (split_into_chunks tok S L1).length ≤ (split_into_chunks tok S L2).length := by
  rw [split_into_chunks_length_eq, split_into_chunks_length_eq]
  refine finalChunkCount_le_of_dominates _ _ ?_
  refine chunk_fold_dominates tok L1 L2 hle S _ _ ?_
  exact ⟨le_refl _, fun _ => ⟨le_refl _, List.suffix_refl _⟩⟩

/-- Witness for `split_into_chunks_count_antitone` at a concrete input. -/
theorem split_into_chunks_count_antitone_witness :
    (split_into_chunks String.length ["aa", "bb", "cc"] 5).length
      ≤ (split_into_chunks String.length ["aa", "bb", "cc"] 2).length :=
  split_into_chunks_count_antitone String.length ["aa", "bb", "cc"] 5 2
    (by decide) (by decide)

/-! ## The empty first chunk (C9) and the behaviour of `process_text`
(C1, C5, C10) -/

theorem chunk_fold_chunks_prefix (tok : String → Nat) (L : Nat) :
    ∀ (S : List String) (st : ChunkState),
      ∃ t, (S.foldl (chunkStep tok L) st).1 = st.1 ++ t := by
  intro S
  induction S with
  | nil => intro st; exact ⟨[], by simp⟩
  | cons s S ih =>
    intro st
    rw [List.foldl_cons]
    by_cases h : st.2.2 + tok s > L
    · have e : chunkStep tok L st s = (st.1 ++ [st.2.1], s, tok s) := by
        simp [chunkStep, h]
      rw [e]
      obtain ⟨t, ht⟩ := ih (st.1 ++ [st.2.1], s, tok s)
      exact ⟨[st.2.1] ++ t, by simp [ht]⟩
    · have e : chunkStep tok L st s = (st.1, st.2.1 ++ " " ++ s, st.2.2 + tok s) := by
        simp [chunkStep, h]
      rw [e]
      obtain ⟨t, ht⟩ := ih (st.1, st.2.1 ++ " " ++ s, st.2.2 + tok s)
      exact ⟨t, ht⟩

theorem split_into_chunks_cons_empty (tok : String → Nat) (s : String)
    (rest : List String) (L : Nat) (h : L < tok s) :
    ∃ cs, split_into_chunks tok (s :: rest) L = "" :: cs := by
  have e : chunkStep tok L ([], "", 0) s = ([""], s, tok s) := by
    simp [chunkStep]
    omega
  simp only [split_into_chunks, List.foldl_cons, e]
  obtain ⟨t, ht⟩ := chunk_fold_chunks_prefix tok L rest ([""], s, tok s)
  split
  · exact ⟨t ++ [(rest.foldl (chunkStep tok L) ([""], s, tok s)).2.1], by simp [ht]⟩
  · exact ⟨t, by simp [ht]⟩

/-- C9: when the first sentence's token count alone exceeds the limit,
the partitioner flushes the still-empty initial buffer, so its first
chunk is the empty string; `process_text` then hands exactly this empty
chunk to `summarize_chunk` (and, because of the early return, nothing
else). -/
theorem split_into_chunks_empty_first_chunk (env : SummEnv)
    (content s : String) (rest : List String) (L : Nat)
    (hsent : env.sent_tokenize content = s :: rest) (h : L < env.tok s)
    (summarize_type question llm_model : String) (length_percentage : Nat)
    (randomness : ℚ) :
    (split_into_chunks env.tok (s :: rest) L).head? = some ""
      ∧ process_text env content summarize_type question llm_model L
          length_percentage randomness
        = (summarize_chunk env (split_into_chunks env.tok (s :: rest) L).length 1 ""
            summarize_type question llm_model length_percentage randomness).map
            (fun sm => some ("" ++ "\n\n" ++ sm)) := by
  obtain ⟨cs, hcs⟩ := split_into_chunks_cons_empty env.tok s rest L h
  constructor
  · rw [hcs]; rfl
  · simp only [process_text, split_into_sentences, hsent, hcs, process_text_loop]
    cases summarize_chunk env ("" :: cs).length 1 "" summarize_type question
        llm_model length_percentage randomness <;> rfl

/-- Witness for `split_into_chunks_empty_first_chunk` at a concrete
input: limit 1, first sentence `"A."` of 2 tokens. -/
theorem split_into_chunks_empty_first_chunk_witness :
    (split_into_chunks demoEnvOk.tok ["A.", "B."] 1).head? = some ""
      ∧ process_text demoEnvOk "A. B." TEXT_SUMMARIZATION "" LLM_MODEL 1 20
          (4/5 : ℚ)
        = (summarize_chunk demoEnvOk
            (split_into_chunks demoEnvOk.tok ["A.", "B."] 1).length 1 ""
            TEXT_SUMMARIZATION "" LLM_MODEL 20 (4/5 : ℚ)).map
            (fun sm => some ("" ++ "\n\n" ++ sm)) :=
  split_into_chunks_empty_first_chunk demoEnvOk "A. B." "A." ["B."] 1 rfl
    (by decide) TEXT_SUMMARIZATION "" LLM_MODEL 20 (4/5 : ℚ)

/-- C10: when the partitioner produces no chunks (e.g. the text segments
into no sentences), the `for` loop of `process_text` never runs and the
function falls off its end, returning Python's `None` (here `ok none`)
despite the declared return type `str`. -/
theorem process_text_none_of_no_chunks (env : SummEnv)
    (content summarize_type question llm_model : String) (L : Nat)
    (length_percentage : Nat) (randomness : ℚ)
    (h : split_into_chunks env.tok (env.sent_tokenize content) L = []) :
    process_text env content summarize_type question llm_model L
      length_percentage randomness = .ok none := by
  simp only [process_text, split_into_sentences, h]
  rfl

/-- Witness for `process_text_none_of_no_chunks`: the empty document. -/
theorem process_text_none_of_no_chunks_witness :
    process_text demoEnvNoSentences "" TEXT_SUMMARIZATION "" LLM_MODEL 7000 20
      (4/5 : ℚ) = .ok none :=
  process_text_none_of_no_chunks demoEnvNoSentences "" TEXT_SUMMARIZATION ""
    LLM_MODEL 7000 20 (4/5 : ℚ) rfl

/-- C1 (bug demonstration): on a document that partitions into TWO
chunks, `process_text` returns right after summarizing the first chunk —
the `return` sits inside the loop body — so the returned string contains
the single summarization result `"S"` rather than one result per chunk
(`"\n\nS\n\nS"`). -/
theorem process_text_early_return_first_chunk :
    (split_into_chunks demoEnvOk.tok (demoEnvOk.sent_tokenize "A. B.") 3).length = 2
      ∧ process_text demoEnvOk "A. B." TEXT_SUMMARIZATION "" LLM_MODEL 3 20
          (4/5 : ℚ) = .ok (some "\n\nS") :=
  ⟨rfl, rfl⟩

/-- C5 (bug demonstration): with an oracle that fails exactly on prompts
about the 2nd part of a larger text, a 2-chunk run still returns a
partial summary (`ok`, containing only chunk 1's result) — the failing
chunk-2 call, shown in the second conjunct, is never reached, so the
outcome is neither a complete summary nor an error. -/
theorem process_text_partial_summary_despite_error :
    process_text demoEnvFailPart2 "A. B." TEXT_SUMMARIZATION "" LLM_MODEL 3 20
        (4/5 : ℚ) = .ok (some "\n\nS")
      ∧ summarize_chunk demoEnvFailPart2 2 2 "B." TEXT_SUMMARIZATION ""
          LLM_MODEL 20 (4/5 : ℚ) = .error "boom" :=
  ⟨rfl, rfl⟩

/-! ## Empty-prompt guard of the conversational handler (C6) -/

/-- C6: on a prompt-button submission whose input text is missing or
empty, `update_answer_output` renders the literal message
"Please enter a prompt." and never invokes the completion endpoint. -/
theorem update_answer_output_empty_prompt (env : AnswerEnv)
    (prompt_button_clicks : Option Nat) (trigger_id : String)
    (history0 : Option (List ChatMsg)) (outputs0 : Option (List String))
    (sys_prompt : String) (ai_custom_role : Option String)
    (input_text : Option String) (random_value : ℚ)
    (hc : prompt_button_clicks ≠ none)
    (ht : isSubstr "prompt-button".data trigger_id.data = true)
    (hi : input_text = none ∨ input_text = some "") :
    ∃ r, update_answer_output env prompt_button_clicks trigger_id history0
        outputs0 sys_prompt ai_custom_role input_text random_value = .value r
      ∧ r.textOutput = .md "Please enter a prompt." ∧ r.llmCalled = false := by
  cases prompt_button_clicks with
  | none => exact absurd rfl hc
  | some n =>
    rcases hi with rfl | rfl
    · exact ⟨_, by simp only [update_answer_output]; rw [if_pos ht]; rfl, rfl, rfl⟩
    · exact ⟨_, by simp only [update_answer_output]; rw [if_pos ht]; rfl, rfl, rfl⟩

/-- Witness for `update_answer_output_empty_prompt` at a concrete input. -/
theorem update_answer_output_empty_prompt_witness :
    ∃ r, update_answer_output demoAnswerEnv (some 1) "prompt-button" none none
        "helpful general assistant" none none (4/5 : ℚ) = .value r
      ∧ r.textOutput = .md "Please enter a prompt." ∧ r.llmCalled = false :=
  update_answer_output_empty_prompt demoAnswerEnv (some 1) "prompt-button"
    none none "helpful general assistant" none none (4/5 : ℚ)
    (by decide) (by decide) (Or.inl rfl)

/-! ## Hyphen-at-line-break repair in PDF extraction (C7) -/

theorem removeHyphenNewline_append : ∀ (x y : List Char),
    (x.getLast? = some '-' → y.head? ≠ some '\n') →
    removeHyphenNewline (x ++ y)
      = removeHyphenNewline x ++ removeHyphenNewline y
  | [], y, _ => by simp [removeHyphenNewline]
  | [c], y, h => by
    cases y with
    | nil => simp [removeHyphenNewline]
    | cons d y' =>
      by_cases hc : c = '-' ∧ d = '\n'
      · exact absurd (by simp [hc.2]) (h (by simp [hc.1]))
      · show removeHyphenNewline (c :: d :: y') = _
        simp only [removeHyphenNewline]
        rw [if_neg hc]
        rfl
  | c :: d :: x', y, h => by
    by_cases hc : c = '-' ∧ d = '\n'
    · show removeHyphenNewline (c :: d :: (x' ++ y))
          = removeHyphenNewline (c :: d :: x') ++ removeHyphenNewline y
      simp only [removeHyphenNewline]
      rw [if_pos hc, if_pos hc]
      cases x' with
      | nil => simp [removeHyphenNewline]
      | cons e x'' =>
        exact removeHyphenNewline_append (e :: x'') y
          (by simpa using h)
    · show removeHyphenNewline (c :: d :: (x' ++ y))
          = removeHyphenNewline (c :: d :: x') ++ removeHyphenNewline y
      simp only [removeHyphenNewline]
      rw [if_neg hc, if_neg hc]
      have := removeHyphenNewline_append (d :: x') y (by simpa using h)
      simp only [List.cons_append] at this ⊢
      rw [this]

/-- C7: whenever the concatenated page text contains a hyphen immediately
followed by a line break (shown on the spec's example occurrence
`"co-\noperation"`), `extract_text_from_pdf` deletes that hyphen-newline
pair, joining the split word into `"cooperation"`, while normalizing the
surrounding text in the same way. -/
theorem extract_text_from_pdf_joins_hyphenation
    (word_tokenize : String → List String) (pages : List String)
    (pre post : List Char)
    (hsplit : (String.join pages).data = pre ++ "co-\noperation".data ++ post) :
    ((extract_text_from_pdf word_tokenize pages).1).data
      = removeHyphenNewline pre ++ "cooperation".data
          ++ removeHyphenNewline post := by
  have hhead : ("co-\noperation".data ++ post).head? = some 'c' := by
    rw [show "co-\noperation".data = 'c' :: "o-\noperation".data from rfl]
    rfl
  show (String.mk (removeHyphenNewline (String.join pages).data)).data = _
  rw [hsplit, List.append_assoc]
  rw [removeHyphenNewline_append pre ("co-\noperation".data ++ post)
    (fun _ => by rw [hhead]; decide)]
  rw [removeHyphenNewline_append "co-\noperation".data post
    (fun hlast => absurd hlast (by decide))]
  show removeHyphenNewline pre
      ++ (removeHyphenNewline "co-\noperation".data ++ removeHyphenNewline post) = _
  rw [show removeHyphenNewline "co-\noperation".data = "cooperation".data from by decide,
    ← List.append_assoc]

/-- Witness for `extract_text_from_pdf_joins_hyphenation` at a concrete
one-page document. -/
theorem extract_text_from_pdf_joins_hyphenation_witness :
    ((extract_text_from_pdf (fun s => [s]) ["international co-\noperation."]).1).data
      = removeHyphenNewline "international ".data ++ "cooperation".data
          ++ removeHyphenNewline ".".data :=
  extract_text_from_pdf_joins_hyphenation (fun s => [s])
    ["international co-\noperation."] "international ".data ".".data (by decide)

/-! ## Substring machinery for the prompt-framing claim (C8) -/

theorem infix_append_cases {p a b : List Char} (h : p <:+: a ++ b) :
    p <:+: a ∨ p <:+: b ∨
      ∃ p1 p2, p1 ++ p2 = p ∧ p1 ≠ [] ∧ p2 ≠ [] ∧ p1 <:+ a ∧ p2 <+: b := by
  obtain ⟨s, t, hst⟩ := h
  by_cases h1 : s.length + p.length ≤ a.length
  · left
    have hsp : s ++ p <+: a ++ b := ⟨t, hst⟩
    have hle : (s ++ p).length ≤ a.length := by simp; omega
    obtain ⟨r, hr⟩ :=
      List.prefix_of_prefix_length_le hsp (List.prefix_append a b) hle
    exact ⟨s, r, hr⟩
  · by_cases h2 : a.length ≤ s.length
    · right; left
      have hs : s <+: a ++ b := ⟨p ++ t, by rw [← hst, List.append_assoc]⟩
      obtain ⟨s', hs'⟩ :=
        List.prefix_of_prefix_length_le (List.prefix_append a b) hs h2
      have hb : s' ++ p ++ t = b := by
        have h' : a ++ (s' ++ p ++ t) = a ++ b := by
          rw [← hst, ← hs']
          simp [List.append_assoc]
        exact List.append_cancel_left h'
      exact ⟨s', t, hb⟩
    · right; right
      push_neg at h1 h2
      have hsub : a.length - s.length ≤ p.length := by omega
      refine ⟨p.take (a.length - s.length), p.drop (a.length - s.length),
        List.take_append_drop _ _, ?_, ?_, ?_, ?_⟩
      · intro hnil
        have hlen := congrArg List.length hnil
        rw [List.length_take] at hlen
        simp only [List.length_nil] at hlen
        omega
      · intro hnil
        have hlen := congrArg List.length hnil
        rw [List.length_drop] at hlen
        simp only [List.length_nil] at hlen
        omega
      · have htake := congrArg (List.take a.length) hst
        rw [List.take_left] at htake
        rw [List.append_assoc, List.take_append_eq_append_take,
          List.take_of_length_le (le_of_lt h2),
          List.take_append_eq_append_take] at htake
        have hz : a.length - s.length - p.length = 0 := by omega
        rw [hz, List.take_zero, List.append_nil] at htake
        exact ⟨s, htake⟩
      · have hdrop := congrArg (List.drop a.length) hst
        rw [List.drop_left] at hdrop
        rw [List.append_assoc, List.drop_append_eq_append_drop,
          List.drop_eq_nil_of_le (le_of_lt h2),
          List.drop_append_eq_append_drop] at hdrop
        have hz : a.length - s.length - p.length = 0 := by omega
        rw [hz, List.drop_zero, List.nil_append] at hdrop
        exact ⟨t, hdrop⟩

theorem not_infix_append_span (p a b : List Char) (ha : ¬ p <:+: a)
    (hb : ¬ p <:+: b)
    (hspan : ∀ l, l < a.length + 1 → 0 < l → l ≤ p.length →
      ¬ p.take l = a.drop (a.length - l)) :
    ¬ p <:+: a ++ b := by
  intro h
  rcases infix_append_cases h with h | h | ⟨p1, p2, hp, h1, _h2, hsuf, _hpre⟩
  · exact ha h
  · exact hb h
  · obtain ⟨u, hu⟩ := hsuf
    have hl1 : p1.length ≤ a.length := by rw [← hu]; simp
    have hl2 : p1.length ≤ p.length := by rw [← hp]; simp
    have htake : p.take p1.length = p1 := by rw [← hp, List.take_left]
    have hdrop : a.drop (a.length - p1.length) = p1 := by
      have hu' : (u ++ p1).length - p1.length = u.length := by simp
      rw [← hu, hu', List.drop_left]
    exact hspan p1.length (by omega) (List.length_pos.2 h1) hl2
      (htake.trans hdrop.symm)

theorem not_infix_append_head (p a : List Char) (c : Char) (b : List Char)
    (ha : ¬ p <:+: a) (hb : ¬ p <:+: c :: b) (hc : c ∉ p) :
    ¬ p <:+: a ++ c :: b := by
  intro h
  rcases infix_append_cases h with h | h | ⟨p1, p2, hp, _h1, h2, _hsuf, hpre⟩
  · exact ha h
  · exact hb h
  · cases p2 with
    | nil => exact h2 rfl
    | cons x xs =>
      have hx : x = c := (List.cons_prefix_cons.1 hpre).1
      apply hc
      rw [← hp, ← hx]
      simp

theorem not_infix_append_disjoint (p a b : List Char) (hp : p ≠ [])
    (hdisj : ∀ ch ∈ a, ch ∉ p) (hb : ¬ p <:+: b) : ¬ p <:+: a ++ b := by
  intro h
  rcases infix_append_cases h with h | h | ⟨p1, p12, hp12, h1, _h2, hsuf, _hpre⟩
  · cases p with
    | nil => exact hp rfl
    | cons x xs => exact hdisj x (h.subset (by simp)) (by simp)
  · exact hb h
  · cases p1 with
    | nil => exact h1 rfl
    | cons x xs =>
      refine hdisj x (hsuf.subset (by simp)) ?_
      rw [← hp12]
      simp

theorem digitChar_isDigit (n : Nat) (h : n < 10) :
    (Nat.digitChar n).isDigit = true := by
  interval_cases n <;> decide

theorem toDigitsCore_isDigit :
    ∀ (fuel n : Nat) (acc : List Char), (∀ ch ∈ acc, ch.isDigit = true) →
      ∀ ch ∈ Nat.toDigitsCore 10 fuel n acc, ch.isDigit = true := by
  intro fuel
  induction fuel with
  | zero =>
    intro n acc hacc ch hch
    rw [Nat.toDigitsCore] at hch
    exact hacc ch hch
  | succ f ih =>
    intro n acc hacc ch hch
    have hmem : ∀ x ∈ Nat.digitChar (n % 10) :: acc, x.isDigit = true := by
      intro x hx
      rcases List.mem_cons.1 hx with rfl | hx
      · exact digitChar_isDigit _ (Nat.mod_lt n (by decide))
      · exact hacc x hx
    simp only [Nat.toDigitsCore] at hch
    split at hch
    · exact hmem ch hch
    · exact ih (n / 10) _ hmem ch hch

theorem repr_data_isDigit (n : Nat) :
    ∀ ch ∈ (Nat.repr n).data, ch.isDigit = true := by
  intro ch hch
  exact toDigitsCore_isDigit (n + 1) n [] (by simp) ch hch

/-- No character of `Nat.repr n` occurs in the framing phrase. -/
theorem repr_data_disjoint_partPhrase (n : Nat) :
    ∀ ch ∈ (Nat.repr n).data, ch ∉ partPhrase.data := by
  intro ch hch hmem
  have h1 := repr_data_isDigit n ch hch
  have h2 : ∀ c ∈ partPhrase.data, c.isDigit = false := by decide
  rw [h2 ch hmem] at h1
  exact Bool.noConfusion h1

/-- The framing phrase does not occur in the single-chunk focus-question
prompt, provided it occurs in neither the question nor the chunk. -/
theorem no_partPhrase_in_focus_prompt (q c r : List Char)
    (hr : ∀ ch ∈ r, ch.isDigit = true)
    (hq : ¬ partPhrase.data <:+: q) (hc : ¬ partPhrase.data <:+: c) :
    ¬ partPhrase.data <:+:
      ("Please analyze the following text and provide a summary in ".data
        ++ (r ++ (" words focusing on the question: `".data
        ++ (q ++ ("`. The text is: ".data ++ c))))) := by
  apply not_infix_append_span _ _ _ (by decide) _ (by decide)
  apply not_infix_append_disjoint _ _ _ (by decide)
    (fun ch hch hmem => by
      have h1 := hr ch hch
      have h2 : ∀ x ∈ partPhrase.data, x.isDigit = false := by decide
      rw [h2 ch hmem] at h1
      exact Bool.noConfusion h1)
  apply not_infix_append_span _ _ _ (by decide) _ (by decide)
  show ¬ partPhrase.data <:+: q ++ ('\x60' :: (". The text is: ".data ++ c))
  refine not_infix_append_head _ _ _ _ hq ?_ (by decide)
  show ¬ partPhrase.data <:+: "`. The text is: ".data ++ c
  exact not_infix_append_span _ _ _ (by decide) hc (by decide)

/-- C8: in focus-question mode with a single chunk, the generated user
prompt is independent of the chunk position (first conjunct), contains
the question verbatim (second conjunct), and contains no "Nth part of the
larger text" framing as long as neither the question nor the chunk text
smuggles that phrase in (third conjunct); with more than one chunk the
prompt instead references the chunk's position as a part of the larger
text (fourth conjunct). -/
theorem summarize_chunk_focus_prompt (pos short_size : Nat)
    (question chunk : String) :
    user_prompt_of FOCUS_QUESTION 1 pos chunk question short_size
        = "Please analyze the following text and provide a summary in "
          ++ Nat.repr short_size ++ " words focusing on the question: `"
          ++ question ++ "`. The text is: " ++ chunk
      ∧ question.data
          <:+: (user_prompt_of FOCUS_QUESTION 1 pos chunk question short_size).data
      ∧ (¬ partPhrase.data <:+: question.data →
          ¬ partPhrase.data <:+: chunk.data →
          ¬ partPhrase.data
            <:+: (user_prompt_of FOCUS_QUESTION 1 pos chunk question short_size).data)
      ∧ ∀ n, 1 < n →
          (Nat.repr pos ++ ". part of the larger text").data
            <:+: (user_prompt_of FOCUS_QUESTION n pos chunk question short_size).data := by
  have c1 : ¬(FOCUS_QUESTION = TEXT_SUMMARIZATION
      ∨ FOCUS_QUESTION = BULLET_POINTS) := by decide
  have hP : user_prompt_of FOCUS_QUESTION 1 pos chunk question short_size
      = "Please analyze the following text and provide a summary in "
        ++ Nat.repr short_size ++ " words focusing on the question: `"
        ++ question ++ "`. The text is: " ++ chunk := by
    simp only [user_prompt_of]
    rw [if_neg c1, if_pos trivial, if_neg (by decide : ¬((1 : Nat) > 1))]
  refine ⟨hP, ?_, ?_, ?_⟩
  · refine ⟨"Please analyze the following text and provide a summary in ".data
        ++ ((Nat.repr short_size).data
          ++ " words focusing on the question: `".data),
      "`. The text is: ".data ++ chunk.data, ?_⟩
    rw [hP]
    simp [String.data_append, List.append_assoc]
  · intro hq hc
    have hPd : (user_prompt_of FOCUS_QUESTION 1 pos chunk question short_size).data
        = "Please analyze the following text and provide a summary in ".data
          ++ ((Nat.repr short_size).data
            ++ (" words focusing on the question: `".data
            ++ (question.data ++ ("`. The text is: ".data ++ chunk.data)))) := by
      rw [hP]
      simp only [String.data_append, List.append_assoc]
    rw [hPd]
    exact no_partPhrase_in_focus_prompt question.data chunk.data _
      (repr_data_isDigit short_size) hq hc
  · intro n hn
    have hPn : user_prompt_of FOCUS_QUESTION n pos chunk question short_size
        = "Please analyze the " ++ Nat.repr pos
          ++ ". part of the larger text and provide a summary in "
          ++ Nat.repr short_size ++ " words focusing on the question: `"
          ++ question ++ "`. This part of the text is: " ++ chunk := by
      simp only [user_prompt_of]
      rw [if_neg c1, if_pos trivial, if_pos hn]
    refine ⟨"Please analyze the ".data,
      " and provide a summary in ".data ++ ((Nat.repr short_size).data
        ++ (" words focusing on the question: `".data ++ (question.data
        ++ ("`. This part of the text is: ".data ++ chunk.data)))), ?_⟩
    rw [hPn]
    have hsplit : (". part of the larger text and provide a summary in " : String).data
        = ". part of the larger text".data ++ " and provide a summary in ".data := by
      decide
    simp [String.data_append, List.append_assoc, hsplit]

/-- Witness for `summarize_chunk_focus_prompt` on the spec's example:
question "What is the capital?", one chunk. -/
theorem summarize_chunk_focus_prompt_witness :
    ¬ partPhrase.data
        <:+: (user_prompt_of FOCUS_QUESTION 1 1 "Paris is nice."
          "What is the capital?" 5).data
      ∧ "What is the capital?".data
          <:+: (user_prompt_of FOCUS_QUESTION 1 1 "Paris is nice."
            "What is the capital?" 5).data
      ∧ (Nat.repr 1 ++ ". part of the larger text").data
          <:+: (user_prompt_of FOCUS_QUESTION 2 1 "Paris is nice."
            "What is the capital?" 5).data := by
  obtain ⟨_h1, h2, h3, h4⟩ :=
    summarize_chunk_focus_prompt 1 5 "What is the capital?" "Paris is nice."
  exact ⟨h3 (by decide) (by decide), h2, h4 2 (by decide)⟩

/-! ## Faithfulness of the sentence-level partitioner: rendering the
chunks of `split_into_chunksL` gives exactly `split_into_chunks` -/

theorem render_foldl_length_le (l : List String) :
    ∀ a : String, a.length ≤ (l.foldl (fun x t => x ++ " " ++ t) a).length := by
  induction l with
  | nil => intro a; simp
  | cons t l ih =>
    intro a
    rw [List.foldl_cons]
    refine le_trans ?_ (ih (a ++ " " ++ t))
    simp only [String.length_append]
    have hsp : (" " : String).length = 1 := rfl
    omega

theorem renderInit_ne_empty (x : String) (xs : List String) :
    renderInit (x :: xs) ≠ "" := by
  intro h
  have h2 : ("" ++ " " ++ x).length ≤ String.length "" := by
    conv_rhs => rw [← h]
    rw [renderInit, List.foldl_cons]
    exact render_foldl_length_le xs _
  simp only [String.length_append] at h2
  have hsp : (" " : String).length = 1 := rfl
  have hnil : ("" : String).length = 0 := rfl
  omega

theorem renderSeeded_append_last (c0 : String) (r : List String) (s : String) :
    renderSeeded ((c0 :: r) ++ [s]) = renderSeeded (c0 :: r) ++ " " ++ s := by
  simp [renderSeeded, List.foldl_append]

theorem renderInit_append_last (l : List String) (s : String) :
    renderInit (l ++ [s]) = renderInit l ++ " " ++ s := by
  simp [renderInit, List.foldl_append]

theorem renderChunks_append_last (csL : List (List String)) (curL : List String)
    (cs : List String) (cur : String) (h1 : cs = renderChunks csL)
    (h3 : csL = [] → cur = renderInit curL)
    (h4 : csL ≠ [] → cur = renderSeeded curL) :
    cs ++ [cur] = renderChunks (csL ++ [curL]) := by
  cases csL with
  | nil =>
    rw [h1, h3 rfl]
    simp [renderChunks]
  | cons c0 cs0 =>
    rw [h1, h4 (by simp)]
    simp [renderChunks, List.map_append]

theorem append_space_ne_empty (a s : String) : a ++ " " ++ s ≠ "" := by
  intro h
  have hlen := congrArg String.length h
  simp only [String.length_append] at hlen
  have hsp : (" " : String).length = 1 := rfl
  have hnil : ("" : String).length = 0 := rfl
  omega

theorem chunk_fold_render (tok : String → Nat) (L : Nat) :
    ∀ (S : List String), (∀ x ∈ S, x ≠ "") →
    ∀ (st : ChunkState) (stL : ChunkStateL), RenderInv st stL →
      RenderInv (S.foldl (chunkStep tok L) st) (S.foldl (chunkStepL tok L) stL) := by
  intro S
  induction S with
  | nil => intro _ st stL h; exact h
  | cons s S ih =>
    intro hS st stL h
    obtain ⟨cs, cur, t⟩ := st
    obtain ⟨csL, curL, tL⟩ := stL
    obtain ⟨h1, h2, h3, h4⟩ := h
    dsimp only at h1 h2 h3 h4
    have hs : s ≠ "" := hS s (by simp)
    have hS' : ∀ x ∈ S, x ≠ "" := fun x hx => hS x (by simp [hx])
    rw [List.foldl_cons, List.foldl_cons]
    by_cases hov : t + tok s > L
    · have e1 : chunkStep tok L (cs, cur, t) s = (cs ++ [cur], s, tok s) := by
        simp [chunkStep, hov]
      have e2 : chunkStepL tok L (csL, curL, tL) s = (csL ++ [curL], [s], tok s) := by
        simp [chunkStepL, ← h2, hov]
      rw [e1, e2]
      refine ih hS' _ _ ⟨?_, rfl, ?_, ?_⟩
      · exact renderChunks_append_last csL curL cs cur h1 h3
          (fun hne => (h4 hne).1)
      · intro hfalse
        exact absurd hfalse (by simp)
      · intro _
        exact ⟨rfl, by simp, hs⟩
    · have e1 : chunkStep tok L (cs, cur, t) s = (cs, cur ++ " " ++ s, t + tok s) := by
        simp [chunkStep, hov]
      have e2 : chunkStepL tok L (csL, curL, tL) s
          = (csL, curL ++ [s], tL + tok s) := by
        simp [chunkStepL, ← h2, hov]
      rw [e1, e2]
      refine ih hS' _ _ ⟨h1, by simp [h2], ?_, ?_⟩
      · intro hnil
        rw [h3 hnil, renderInit_append_last]
      · intro hne
        obtain ⟨hcur, hcurL, _hne'⟩ := h4 hne
        obtain ⟨c0, r, rfl⟩ : ∃ c0 r, curL = c0 :: r := by
          cases curL with
          | nil => exact absurd rfl hcurL
          | cons c0 r => exact ⟨c0, r, rfl⟩
        refine ⟨?_, by simp, append_space_ne_empty cur s⟩
        rw [hcur, renderSeeded_append_last]

/-- Rendering the sentence-level chunks of `split_into_chunksL` yields
exactly the chunk strings of `split_into_chunks`, for sentence lists
without empty sentences (a sentence segmenter never produces empty
sentences); this is the sense in which `split_into_chunksL` is the same
source loop observed at sentence granularity. -/
theorem split_into_chunks_eq_render (tok : String → Nat) (S : List String)
    (L : Nat) (hS : ∀ x ∈ S, x ≠ "") :
    split_into_chunks tok S L = renderChunks (split_into_chunksL tok S L) := by
  obtain ⟨h1, _h2, h3, h4⟩ := chunk_fold_render tok L S hS ([], "", 0) ([], [], 0)
    ⟨rfl, rfl, fun _ => rfl, fun h => absurd rfl h⟩
  simp only [split_into_chunks, split_into_chunksL]
  by_cases hcl : (S.foldl (chunkStepL tok L) ([], [], 0)).2.1 = []
  · have hcs : (S.foldl (chunkStepL tok L) ([], [], 0)).1 = [] := by
      by_contra hne
      exact (h4 hne).2.1 hcl
    have hcur : (S.foldl (chunkStep tok L) ([], "", 0)).2.1 = "" := by
      rw [h3 hcs, hcl]
      rfl
    rw [if_neg (by simp [hcur]), if_neg (by simp [hcl])]
    exact h1
  · have hcur : (S.foldl (chunkStep tok L) ([], "", 0)).2.1 ≠ "" := by
      by_cases hcs : (S.foldl (chunkStepL tok L) ([], [], 0)).1 = []
      · rw [h3 hcs]
        obtain ⟨c0, r, hr⟩ : ∃ c0 r,
            (S.foldl (chunkStepL tok L) ([], [], 0)).2.1 = c0 :: r := by
          cases hval : (S.foldl (chunkStepL tok L) ([], [], 0)).2.1 with
          | nil => exact absurd hval hcl
          | cons c0 r => exact ⟨c0, r, rfl⟩
        rw [hr]
        exact renderInit_ne_empty c0 r
      · exact (h4 hcs).2.2
    rw [if_pos (by simp [hcur]), if_pos (by simp [hcl])]
    exact renderChunks_append_last _ _ _ _ h1 h3 (fun hne => (h4 hne).1)

end SummApp
